import Mathlib

/-
  Verification development for the AMQP producer sample (src/src/producer.c).

  The event-driven producer is shallowly embedded: the mutable fields of
  `app_data_t` that the event handler touches (plus the global `exit_code`
  and the "connection close requested" effect) form `AppState`; the event
  handler `handle` becomes a pure function from a state and an event to a
  new state, the list of message sends it performed, and the boolean it
  returns to the run loop; `run`'s event loop becomes a fold over a list of
  events that stops as soon as `handle` returns false.  Library calls that
  do not touch this state (session/link open, printing to stdout) are not
  modelled; the encode buffer's growth loop is modelled separately because
  the encoded size of a message is produced by the proton codec.
-/

namespace Producer

/-- Mirror of the mutable program state of producer.c: the counters and
strings of `app_data_t`, the global `exit_code`, and whether
`pn_connection_close` has been requested on the connection. -/
structure AppState where
  message_count : Nat
  sent : Nat
  acknowledged : Nat
  amqp_address : String
  amqp_topic_prefix : String
  exit_code : Nat
  closeRequested : Bool
deriving DecidableEq

/-- Read the topic prefix field of an `AppState`. -/
def topicPfx : AppState → String
  | { amqp_topic_prefix := p, .. } => p

/-- The proton events that producer.c's `handle` dispatches on.  A
`connection_remote_open` event carries the result of the remote-property
lookup performed by `set_topic_prefix_from_connection` (the return code and
the advertised prefix value); condition-bearing events carry whether
`pn_condition_is_set` holds for the relevant condition; `link_flow` carries
the link credit granted by the peer; `delivery` carries whether the remote
state is `PN_ACCEPTED`.  `other` stands for every event kind producer.c's
`default:` branch ignores. -/
inductive PnEvent where
  | connection_init
  | connection_remote_open (rc : Int) (val : String)
  | link_flow (credit : Nat)
  | delivery (accepted : Bool) (condSet : Bool)
  | transport_closed (condSet : Bool)
  | connection_remote_close (condSet : Bool)
  | session_remote_close (condSet : Bool)
  | link_remote_close (condSet : Bool)
  | link_remote_detach (condSet : Bool)
  | proactor_inactive
  | other
deriving DecidableEq

/-- One `pn_delivery`/`pn_link_send` pair as performed by the PN_LINK_FLOW
loop: the integer carried in the delivery-tag bytes, the message body
string, and the message's durable flag. -/
structure Send where
  tag : Nat
  body : String
  durable : Bool
deriving DecidableEq

/-- Body string built by `encode_message`: `sprintf "sequence_%d"` applied
to the current value of `app->sent`. -/
def messageBody (n : Nat) : String := "sequence_" ++ Nat.repr n

/-- The send performed for sequence number `n`: producer.c uses the
(already incremented) `sent` counter both as the delivery tag bytes and as
the number in the message body, and sets the durable flag. -/
def mkSend (n : Nat) : Send := { tag := n, body := messageBody n, durable := true }

/-- Result of one call of producer.c's `handle`: the new state, the sends
performed, and the boolean `handle` returns (`true` = continue looping). -/
structure HandleResult where
  state : AppState
  sends : List Send
  cont : Bool
deriving DecidableEq

/-- `PN_MAX_ADDR` from proton/proactor.h, the size of the address buffer
`amqp_topic` in the PN_CONNECTION_REMOTE_OPEN branch. -/
def PN_MAX_ADDR : Nat := 1060

/-- Modelled from the spec: `amqp_destination_address` lives in util.c,
which is not under src/.  Per the spec's Address Resolver contract it
concatenates the topic prefix and the topic name into a buffer of the
given capacity and signals failure (a negative return in C, `none` here)
when the result would exceed the maximum address length. -/
def amqp_destination_address (cap : Nat) (addr pfx : String) : Option String :=
  if pfx.length + addr.length < cap then some (pfx ++ addr) else none

/-- Embedding of producer.c's `check_condition`: when the condition is set
it prints the event type, condition name and description (the returned
boolean records that the diagnostic was emitted), closes the connection
and sets `exit_code` to 1; otherwise it does nothing.  The auxiliary
`pn_data_format` retry loop only affects the printed text and is not
modelled. -/
def check_condition (st : AppState) (condSet : Bool) : AppState × Bool :=
  if condSet then ({ st with exit_code := 1, closeRequested := true }, true)
  else (st, false)

/-- Embedding of producer.c's `set_topic_prefix_from_connection`.  The
property lookup `get_data_map_string_property` lives in util.c (not under
src/); its return code `rc` and the string it would write are taken as
inputs, following the contract documented in producer.c: `rc > 0` means
the property was found and written, `rc ≤ 0` means absent/invalid or not
representable/too large.  Only for `rc > 0` is the stored prefix
replaced. -/
def set_topic_prefix_from_connection (app : AppState) (rc : Int) (val : String) :
    AppState × Int :=
  if 0 < rc then ({ app with amqp_topic_prefix := val }, rc) else (app, rc)

/-- The PN_LINK_FLOW send loop of producer.c's `handle`: while the link has
credit and `sent < message_count`, increment `sent`, issue a delivery
tagged with the new `sent`, encode and send the message body built from
the new `sent` (durable), and advance the link (consuming one credit). -/
def flowLoop : Nat → AppState → AppState × List Send
  | 0, st => (st, [])
  | credit + 1, st =>
    if st.sent < st.message_count then
      let r := flowLoop credit { st with sent := st.sent + 1 }
      (r.1, mkSend (st.sent + 1) :: r.2)
    else (st, [])

/-- Embedding of producer.c's `handle` (the event dispatch).  Returns the
new state, the sends performed, and the boolean result (`true` to
continue, `false` when finished). -/
def handle (st : AppState) (e : PnEvent) : HandleResult :=
  match e with
  | PnEvent.connection_init =>
      { state := st, sends := [], cont := true }
  | PnEvent.connection_remote_open rc val =>
      let st1 := (set_topic_prefix_from_connection st rc val).1
      match amqp_destination_address PN_MAX_ADDR st1.amqp_address (topicPfx st1) with
      | none => { state := { st1 with exit_code := 1 }, sends := [], cont := false }
      | some _ => { state := st1, sends := [], cont := true }
  | PnEvent.link_flow credit =>
      let r := flowLoop credit st
      { state := r.1, sends := r.2, cont := true }
  | PnEvent.delivery accepted condSet =>
      if accepted then
        if st.acknowledged + 1 = st.message_count then
          { state := { st with acknowledged := st.acknowledged + 1, closeRequested := true },
            sends := [], cont := true }
        else
          { state := { st with acknowledged := st.acknowledged + 1 },
            sends := [], cont := true }
      else
        { state := { (check_condition st condSet).1 with closeRequested := true, exit_code := 1 },
          sends := [], cont := true }
  | PnEvent.transport_closed condSet =>
      { state := (check_condition st condSet).1, sends := [], cont := true }
  | PnEvent.connection_remote_close condSet =>
      { state := { (check_condition st condSet).1 with closeRequested := true },
        sends := [], cont := true }
  | PnEvent.session_remote_close condSet =>
      { state := { (check_condition st condSet).1 with closeRequested := true },
        sends := [], cont := true }
  | PnEvent.link_remote_close condSet =>
      { state := { (check_condition st condSet).1 with closeRequested := true },
        sends := [], cont := true }
  | PnEvent.link_remote_detach condSet =>
      { state := { (check_condition st condSet).1 with closeRequested := true },
        sends := [], cont := true }
  | PnEvent.proactor_inactive =>
      { state := st, sends := [], cont := false }
  | PnEvent.other =>
      { state := st, sends := [], cont := true }

/-- Result of producer.c's `run` loop on a finite sequence of events: the
final state, the sends performed in order, and whether the loop stopped
early because `handle` returned false. -/
structure RunResult where
  state : AppState
  sends : List Send
  stopped : Bool
deriving DecidableEq

/-- Embedding of producer.c's `run`: process events in order with `handle`
and return as soon as `handle` returns false. -/
def runEvents (st : AppState) : List PnEvent → RunResult
  | [] => { state := st, sends := [], stopped := false }
  | e :: es =>
    let r := handle st e
    if r.cont then
      let rr := runEvents r.state es
      { state := rr.state, sends := r.sends ++ rr.sends, stopped := rr.stopped }
    else
      { state := r.state, sends := r.sends, stopped := true }

/-- The state `parse_args`/`main` start from: counters at 0, exit code 0,
no close requested, with the given message count, topic name and topic
prefix (default `"topic://"`). -/
def initState (mc : Nat) (addr pfx : String) : AppState :=
  { message_count := mc, sent := 0, acknowledged := 0, amqp_address := addr,
    amqp_topic_prefix := pfx, exit_code := 0, closeRequested := false }

/-- Capacity reached by the PN_OVERFLOW retry loop of `encode_message`:
double the capacity until the encoded size fits.  The `cap = 0` guard is
unreachable from the program (capacities start at 128) and only makes the
recursion well founded. -/
def growCap (cap need : Nat) : Nat :=
  if need ≤ cap then cap
  else if cap = 0 then 0
  else growCap (2 * cap) need
termination_by need - cap
decreasing_by omega

/-- Buffer dynamics of one `encode_message` call: a NULL buffer (`cap = 0`)
is first allocated at the initial size 128, then the capacity is doubled on
each PN_OVERFLOW until the encoded size `need` fits; the returned byte
range has length `need` (on success `pn_message_encode` sets the range
length to the encoded size). -/
def encodeStep (cap need : Nat) : Nat × Nat :=
  (growCap (if cap = 0 then 128 else cap) need, need)

/-- Buffer capacity after a sequence of `encode_message` calls with the
given encoded sizes. -/
def encodeRun (cap : Nat) (needs : List Nat) : Nat :=
  needs.foldl (fun c n => (encodeStep c n).1) cap

/-- Well-formedness of an event trace with respect to the broker protocol:
an accepted-delivery event acknowledges a delivery the producer actually
issued and that is still outstanding, so it can only be delivered while
`acknowledged < sent`. -/
def wfFrom (st : AppState) : List PnEvent → Bool
  | [] => true
  | e :: es =>
    (match e with
     | PnEvent.delivery true _ => decide (st.acknowledged < st.sent)
     | _ => true)
    && wfFrom (handle st e).state es

/-- Events that occur in a successful run after connection setup: credit
grants, accepted deliveries, and events the handler ignores. -/
def benignSteady : PnEvent → Bool
  | PnEvent.connection_init => true
  | PnEvent.link_flow _ => true
  | PnEvent.delivery accepted _ => accepted
  | PnEvent.other => true
  | _ => false

/-- Total link credit granted by the link-flow events of a trace. -/
def totalCredit : List PnEvent → Nat
  | [] => 0
  | PnEvent.link_flow c :: es => c + totalCredit es
  | _ :: es => totalCredit es

/-- Number of accepted-delivery events in a trace. -/
def countAccepted : List PnEvent → Nat
  | [] => 0
  | PnEvent.delivery true _ :: es => countAccepted es + 1
  | _ :: es => countAccepted es

/-- The PN_LINK_FLOW loop sends `min credit (message_count - sent)`
messages carrying the consecutive sequence numbers starting at `sent + 1`,
and advances `sent` by that amount; nothing else changes. -/
theorem flowLoop_spec (credit : Nat) (st : AppState) :
    flowLoop credit st
      = ({ st with sent := st.sent + min credit (st.message_count - st.sent) },
         List.map mkSend (List.range' (st.sent + 1) (min credit (st.message_count - st.sent)))) := by
  induction credit generalizing st with
  | zero => simp [flowLoop]
  | succ c ih =>
      by_cases h : st.sent < st.message_count
      · have hmin : min (c + 1) (st.message_count - st.sent)
            = min c (st.message_count - (st.sent + 1)) + 1 := by omega
        simp only [flowLoop, if_pos h, ih, hmin, List.range'_succ, List.map_cons,
          Prod.mk.injEq]
        constructor
        · congr 1
          omega
        · trivial
      · have h0 : st.message_count - st.sent = 0 := by omega
        simp [flowLoop, h, h0]

/-- `handle` never changes `message_count`. -/
theorem handle_mc (st : AppState) (e : PnEvent) :
    (handle st e).state.message_count = st.message_count := by
  cases e <;>
      simp only [handle, set_topic_prefix_from_connection, check_condition, flowLoop_spec] <;>
      repeat' split
  all_goals rfl

/-- `sent` never decreases across a single `handle` step. -/
theorem handle_sent_mono (st : AppState) (e : PnEvent) :
    st.sent ≤ (handle st e).state.sent := by
  cases e <;>
      simp only [handle, set_topic_prefix_from_connection, check_condition, flowLoop_spec] <;>
      repeat' split
  all_goals simp

/-- `acknowledged` never decreases across a single `handle` step. -/
theorem handle_ack_mono (st : AppState) (e : PnEvent) :
    st.acknowledged ≤ (handle st e).state.acknowledged := by
  cases e <;>
      simp only [handle, set_topic_prefix_from_connection, check_condition, flowLoop_spec] <;>
      repeat' split
  all_goals simp

/-- A single `handle` step keeps `sent` within `message_count`. -/
theorem handle_sent_le (st : AppState) (e : PnEvent) (h : st.sent ≤ st.message_count) :
    (handle st e).state.sent ≤ st.message_count := by
  cases e <;>
      simp only [handle, set_topic_prefix_from_connection, check_condition, flowLoop_spec] <;>
      repeat' split
  all_goals try simp
  all_goals omega

/-- Once `pn_connection_close` has been requested, no `handle` step
retracts the request. -/
theorem handle_close_mono (st : AppState) (e : PnEvent) (h : st.closeRequested = true) :
    (handle st e).state.closeRequested = true := by
  cases e <;>
      simp only [handle, set_topic_prefix_from_connection, check_condition, flowLoop_spec] <;>
      repeat' split
  all_goals try simp [h]

/-- The sends of a single `handle` step are exactly the consecutive
sequence numbers from `sent + 1` up to the new value of `sent`. -/
theorem handle_sends_range (st : AppState) (e : PnEvent) :
    (handle st e).sends
      = List.map mkSend (List.range' (st.sent + 1) ((handle st e).state.sent - st.sent)) := by
  cases e <;>
      simp only [handle, set_topic_prefix_from_connection, check_condition, flowLoop_spec] <;>
      repeat' split
  all_goals simp

/-- The run loop never changes `message_count`. -/
theorem runEvents_mc (st : AppState) (es : List PnEvent) :
    (runEvents st es).state.message_count = st.message_count := by
  induction es generalizing st with
  | nil => rfl
  | cons e es ih =>
      cases hc : (handle st e).cont <;>
        simp [runEvents, hc, ih, handle_mc]

/-- `sent` never decreases across a run. -/
theorem runEvents_sent_mono (st : AppState) (es : List PnEvent) :
    st.sent ≤ (runEvents st es).state.sent := by
  induction es generalizing st with
  | nil => simp [runEvents]
  | cons e es ih =>
      cases hc : (handle st e).cont
      · simpa [runEvents, hc] using handle_sent_mono st e
      · simp only [runEvents, hc, if_pos]
        exact le_trans (handle_sent_mono st e) (ih _)

/-- A run started with `sent` within `message_count` keeps it there. -/
theorem runEvents_sent_le (st : AppState) (es : List PnEvent)
    (h : st.sent ≤ st.message_count) :
    (runEvents st es).state.sent ≤ st.message_count := by
  induction es generalizing st with
  | nil => simpa [runEvents] using h
  | cons e es ih =>
      cases hc : (handle st e).cont
      · simpa [runEvents, hc] using handle_sent_le st e h
      · simp only [runEvents, hc, if_pos]
        have h1 := handle_sent_le st e h
        have h2 : (handle st e).state.sent ≤ (handle st e).state.message_count := by
          rw [handle_mc]; exact h1
        have h3 := ih (handle st e).state h2
        rwa [handle_mc] at h3

/-- A requested connection close is never retracted during a run. -/
theorem runEvents_close_mono (st : AppState) (es : List PnEvent)
    (h : st.closeRequested = true) :
    (runEvents st es).state.closeRequested = true := by
  induction es generalizing st with
  | nil => simpa [runEvents] using h
  | cons e es ih =>
      cases hc : (handle st e).cont
      · simpa [runEvents, hc] using handle_close_mono st e h
      · simp only [runEvents, hc, if_pos]
        exact ih _ (handle_close_mono st e h)

/-- The sends of a run are exactly the consecutive sequence numbers from
`sent + 1` up to the final value of `sent`. -/
theorem runEvents_sends (st : AppState) (es : List PnEvent) :
    (runEvents st es).sends
      = List.map mkSend (List.range' (st.sent + 1) ((runEvents st es).state.sent - st.sent)) := by
  induction es generalizing st with
  | nil => simp [runEvents]
  | cons e es ih =>
      cases hc : (handle st e).cont
      · simp only [runEvents, hc, Bool.false_eq_true, if_false]
        simpa using handle_sends_range st e
      · simp only [runEvents, hc, if_pos]
        rw [handle_sends_range st e, ih]
        rw [← List.map_append]
        congr 1
        have h1 := handle_sent_mono st e
        have h2 := runEvents_sent_mono (handle st e).state es
        have heq : (handle st e).state.sent + 1
            = (st.sent + 1) + ((handle st e).state.sent - st.sent) := by omega
        rw [heq, List.range'_append_1]
        congr 1
        omega

/-- Under the well-formedness side condition for accepted deliveries, a
`handle` step preserves `acknowledged ≤ sent`. -/
theorem handle_ack_le (st : AppState) (e : PnEvent)
    (hwf : ∀ c, e = PnEvent.delivery true c → st.acknowledged < st.sent)
    (h1 : st.acknowledged ≤ st.sent) :
    (handle st e).state.acknowledged ≤ (handle st e).state.sent := by
  cases e
  case delivery accepted condSet =>
      cases accepted with
      | true =>
          have hlt := hwf condSet rfl
          simp [handle, check_condition]
          repeat' split
          all_goals try simp
          all_goals omega
      | false =>
          simp [handle, check_condition]
          repeat' split
          all_goals try simp
          all_goals omega
  case link_flow credit =>
      simp [handle, flowLoop_spec]
      omega
  all_goals
      simp only [handle, set_topic_prefix_from_connection, check_condition]
  all_goals repeat' split
  all_goals try simp [h1]

/-- Along any well-formed trace the producer invariant
`acknowledged ≤ sent ≤ message_count` is preserved. -/
theorem runEvents_inv (st : AppState) (es : List PnEvent)
    (hwf : wfFrom st es = true)
    (h1 : st.acknowledged ≤ st.sent) (h2 : st.sent ≤ st.message_count) :
    (runEvents st es).state.acknowledged ≤ (runEvents st es).state.sent
      ∧ (runEvents st es).state.sent ≤ (runEvents st es).state.message_count := by
  induction es generalizing st with
  | nil => simpa [runEvents] using ⟨h1, h2⟩
  | cons e es ih =>
      simp only [wfFrom, Bool.and_eq_true] at hwf
      have hwf1 : ∀ c, e = PnEvent.delivery true c → st.acknowledged < st.sent := by
        intro c hec
        subst hec
        simpa using of_decide_eq_true hwf.1
      have hA := handle_ack_le st e hwf1 h1
      have hS : (handle st e).state.sent ≤ (handle st e).state.message_count := by
        rw [handle_mc]; exact handle_sent_le st e h2
      cases hc : (handle st e).cont
      · simp only [runEvents, hc, Bool.false_eq_true, if_false]
        exact ⟨hA, hS⟩
      · simp only [runEvents, hc, if_pos]
        exact ih (handle st e).state hwf.2 hA hS

/-- Credit granted by a single event. -/
def creditOf : PnEvent → Nat
  | PnEvent.link_flow c => c
  | _ => 0

/-- Number of acknowledgements carried by a single event (1 for an
accepted delivery, 0 otherwise). -/
def ackOf : PnEvent → Nat
  | PnEvent.delivery true _ => 1
  | _ => 0

/-- `totalCredit` decomposes over cons via `creditOf`. -/
theorem totalCredit_cons (e : PnEvent) (es : List PnEvent) :
    totalCredit (e :: es) = creditOf e + totalCredit es := by
  cases e <;> simp [totalCredit, creditOf]

/-- `countAccepted` decomposes over cons via `ackOf`. -/
theorem countAccepted_cons (e : PnEvent) (es : List PnEvent) :
    countAccepted (e :: es) = countAccepted es + ackOf e := by
  cases e
  case delivery accepted condSet =>
      cases accepted <;> simp [countAccepted, ackOf]
  all_goals simp [countAccepted, ackOf]

/-- Every `handle` step adds exactly `ackOf e` to `acknowledged`. -/
theorem handle_ack_eq (st : AppState) (e : PnEvent) :
    (handle st e).state.acknowledged = st.acknowledged + ackOf e := by
  cases e
  case delivery accepted condSet =>
      cases accepted <;>
          simp [handle, ackOf, check_condition] <;>
          repeat' split
      all_goals simp_all
  all_goals
      simp only [handle, ackOf, check_condition, set_topic_prefix_from_connection, flowLoop_spec]
  all_goals repeat' split
  all_goals simp

/-- A benign event never ends the run loop. -/
theorem handle_cont_steady (st : AppState) (e : PnEvent) (hb : benignSteady e = true) :
    (handle st e).cont = true := by
  cases e <;>
      simp_all [benignSteady, handle, check_condition]
  all_goals repeat' split
  all_goals simp_all

/-- Over a benign event, `sent` absorbs the granted credit, clipped at
`message_count`. -/
theorem handle_steady_sent (st : AppState) (e : PnEvent) (hb : benignSteady e = true)
    (h : st.sent ≤ st.message_count) :
    (handle st e).state.sent = min (st.sent + creditOf e) st.message_count := by
  cases e <;>
      simp_all [benignSteady, handle, creditOf, check_condition, flowLoop_spec]
  all_goals repeat' split
  all_goals try simp_all
  all_goals omega

/-- The accepted delivery that makes `acknowledged` reach `message_count`
requests the connection close. -/
theorem handle_close_hit (st : AppState) (c : Bool)
    (h : st.acknowledged + 1 = st.message_count) :
    (handle st (PnEvent.delivery true c)).state.closeRequested = true := by
  simp [handle, h]

/-- Over benign events, the final `sent` is the granted credit clipped at
`message_count`. -/
theorem steady_sent (st : AppState) (es : List PnEvent)
    (hb : es.all benignSteady = true) (h : st.sent ≤ st.message_count) :
    (runEvents st es).state.sent = min (st.sent + totalCredit es) st.message_count := by
  induction es generalizing st with
  | nil =>
      simp only [runEvents, totalCredit]
      omega
  | cons e es ih =>
      simp only [List.all_cons, Bool.and_eq_true] at hb
      have hcont := handle_cont_steady st e hb.1
      simp only [runEvents, hcont, if_pos]
      rw [totalCredit_cons]
      have hs := handle_steady_sent st e hb.1 h
      have hmc := handle_mc st e
      have h2 : (handle st e).state.sent ≤ (handle st e).state.message_count := by
        rw [hmc, hs]
        omega
      rw [ih _ hb.2 h2, hs, hmc]
      omega

/-- Over benign events, the final `acknowledged` counts the accepted
deliveries. -/
theorem steady_ack (st : AppState) (es : List PnEvent)
    (hb : es.all benignSteady = true) :
    (runEvents st es).state.acknowledged = st.acknowledged + countAccepted es := by
  induction es generalizing st with
  | nil => simp [runEvents, countAccepted]
  | cons e es ih =>
      simp only [List.all_cons, Bool.and_eq_true] at hb
      have hcont := handle_cont_steady st e hb.1
      simp only [runEvents, hcont, if_pos]
      rw [countAccepted_cons, ih _ hb.2, handle_ack_eq]
      omega

/-- A step that does not request the close keeps `acknowledged` strictly
below `message_count`. -/
theorem handle_ack_lt (st : AppState) (e : PnEvent)
    (h1 : st.acknowledged < st.message_count)
    (hcl : ¬ (handle st e).state.closeRequested = true) :
    (handle st e).state.acknowledged < st.message_count := by
  rw [handle_ack_eq]
  cases e
  case delivery accepted condSet =>
      cases accepted with
      | true =>
          have hne : st.acknowledged + 1 ≠ st.message_count := fun hh =>
            hcl (handle_close_hit st condSet hh)
          simp only [ackOf]
          omega
      | false =>
          simp only [ackOf]
          omega
  all_goals simp only [ackOf]
  all_goals omega

/-- Over benign events, if `acknowledged` reaches `message_count` during
the run then the connection close has been requested by the end. -/
theorem steady_close (st : AppState) (es : List PnEvent)
    (hb : es.all benignSteady = true)
    (h1 : st.acknowledged < st.message_count)
    (h2 : (runEvents st es).state.acknowledged = st.message_count) :
    (runEvents st es).state.closeRequested = true := by
  induction es generalizing st with
  | nil =>
      simp only [runEvents] at h2
      omega
  | cons e es ih =>
      simp only [List.all_cons, Bool.and_eq_true] at hb
      have hcont := handle_cont_steady st e hb.1
      simp only [runEvents, hcont, if_pos] at h2 ⊢
      by_cases hcl : (handle st e).state.closeRequested = true
      · exact runEvents_close_mono _ _ hcl
      · refine ih _ hb.2 ?_ (by rw [handle_mc]; exact h2)
        rw [handle_mc]
        exact handle_ack_lt st e h1 hcl

/-- Any event other than PN_LINK_FLOW produces no sends and leaves `sent`
alone. -/
theorem handle_noflow (st : AppState) (e : PnEvent) (h : ∀ c, e ≠ PnEvent.link_flow c) :
    (handle st e).sends = [] ∧ (handle st e).state.sent = st.sent := by
  cases e
  case link_flow c => exact absurd rfl (h c)
  all_goals
      simp only [handle, check_condition, set_topic_prefix_from_connection]
  all_goals repeat' split
  all_goals simp

/-- A run containing no link-flow events sends nothing and leaves `sent`
alone. -/
theorem runEvents_noflow (st : AppState) (es : List PnEvent)
    (h : ∀ c, PnEvent.link_flow c ∉ es) :
    (runEvents st es).sends = [] ∧ (runEvents st es).state.sent = st.sent := by
  induction es generalizing st with
  | nil => simp [runEvents]
  | cons e es ih =>
      have he : ∀ c, e ≠ PnEvent.link_flow c := by
        intro c hc
        exact h c (by simp [hc])
      have hes : ∀ c, PnEvent.link_flow c ∉ es := by
        intro c hc
        exact h c (List.mem_cons_of_mem _ hc)
      obtain ⟨h1, h2⟩ := handle_noflow st e he
      cases hc : (handle st e).cont
      · simp [runEvents, hc, h1, h2]
      · obtain ⟨h3, h4⟩ := ih (handle st e).state hes
        simp [runEvents, hc, h1, h2, h3, h4]

/-- The topic prefix after the negotiation step is the advertised value
exactly when the lookup result is positive. -/
theorem topicPfx_set (st : AppState) (rc : Int) (val : String) :
    topicPfx (set_topic_prefix_from_connection st rc val).1
      = if 0 < rc then val else topicPfx st := by
  simp only [set_topic_prefix_from_connection]
  split <;> rfl

/-- The negotiation step touches no field except the topic prefix. -/
theorem set_topic_fields (st : AppState) (rc : Int) (val : String) :
    (set_topic_prefix_from_connection st rc val).1.sent = st.sent
      ∧ (set_topic_prefix_from_connection st rc val).1.acknowledged = st.acknowledged
      ∧ (set_topic_prefix_from_connection st rc val).1.message_count = st.message_count
      ∧ (set_topic_prefix_from_connection st rc val).1.exit_code = st.exit_code
      ∧ (set_topic_prefix_from_connection st rc val).1.closeRequested = st.closeRequested
      ∧ (set_topic_prefix_from_connection st rc val).1.amqp_address = st.amqp_address := by
  simp only [set_topic_prefix_from_connection]
  split <;> simp

/-- Doubling from a positive capacity eventually fits the requested
size. -/
theorem growCap_ge (cap need : Nat) (h : 1 ≤ cap) : need ≤ growCap cap need := by
  rw [growCap]
  split
  · omega
  · split
    · omega
    · exact growCap_ge (2 * cap) need (by omega)
termination_by need - cap
decreasing_by omega

/-- The capacity reached by the doubling loop never shrinks below the
starting capacity. -/
theorem growCap_mono (cap need : Nat) : cap ≤ growCap cap need := by
  rw [growCap]
  split
  · omega
  · split
    · omega
    · have := growCap_mono (2 * cap) need
      omega
termination_by need - cap
decreasing_by omega

/-- The capacity reached by the doubling loop is the starting capacity
times a power of two: finitely many doublings happen. -/
theorem growCap_pow (cap need : Nat) : ∃ k, growCap cap need = cap * 2 ^ k := by
  rw [growCap]
  split
  · exact ⟨0, by simp⟩
  · split
    · next hz => exact ⟨0, by simp [hz]⟩
    · obtain ⟨k, hk⟩ := growCap_pow (2 * cap) need
      exact ⟨k + 1, by rw [hk]; ring⟩
termination_by need - cap
decreasing_by omega

/-- `Nat.toDigitsCore` with positive fuel extends its accumulator by at
least one digit. -/
theorem toDigitsCore_len (fuel : Nat) : ∀ (n : Nat) (ds : List Char),
    ds.length + 1 ≤ (Nat.toDigitsCore 10 (fuel + 1) n ds).length := by
  induction fuel with
  | zero =>
      intro n ds
      simp only [Nat.toDigitsCore]
      split
      · simp
      · simp [Nat.toDigitsCore]
  | succ f ih =>
      intro n ds
      simp only [Nat.toDigitsCore]
      split
      · simp
      · have hle : ds.length + 1 ≤ (Nat.digitChar (n % 10) :: ds).length + 1 := by
          simp only [List.length_cons]
          omega
        exact le_trans hle (ih (n / 10) (Nat.digitChar (n % 10) :: ds))

/-- `Nat.toDigitsCore` never discards accumulated digits. -/
theorem toDigitsCore_len_mono (fuel : Nat) : ∀ (n : Nat) (ds : List Char),
    ds.length ≤ (Nat.toDigitsCore 10 fuel n ds).length := by
  induction fuel with
  | zero =>
      intro n ds
      simp [Nat.toDigitsCore]
  | succ f ih =>
      intro n ds
      simp only [Nat.toDigitsCore]
      split
      · simp
      · have hle : ds.length ≤ (Nat.digitChar (n % 10) :: ds).length := by
          simp only [List.length_cons]
          omega
        exact le_trans hle (ih (n / 10) (Nat.digitChar (n % 10) :: ds))

/-- A number at least 10 has at least two decimal digits. -/
theorem toDigits_len2 (n : Nat) (h : 10 ≤ n) : 2 ≤ (Nat.toDigits 10 n).length := by
  unfold Nat.toDigits
  obtain ⟨f, rfl⟩ : ∃ f, n = f + 1 + 1 := ⟨n - 2, by omega⟩
  simp only [Nat.toDigitsCore]
  have hne : ¬ (f + 1 + 1) / 10 = 0 := by
    have h1 : 1 ≤ (f + 1 + 1) / 10 := (Nat.le_div_iff_mul_le (by norm_num)).mpr (by omega)
    omega
  rw [if_neg hne]
  repeat' split
  all_goals try simp
  all_goals exact le_trans (by simp) (toDigitsCore_len_mono _ _ _)

/-- The decimal representation of a positive number is not `"0"`. -/
theorem repr_ne_zero (n : Nat) (h : 1 ≤ n) : Nat.repr n ≠ "0" := by
  rcases Nat.lt_or_ge n 10 with h10 | h10
  · interval_cases n <;> decide
  · intro hEq
    have hlen : (Nat.repr n).length = 1 := by rw [hEq]; rfl
    have hsame : (Nat.repr n).length = (Nat.toDigits 10 n).length := rfl
    have h2 := toDigits_len2 n h10
    omega

/-- Bodies of positive sequence numbers never collide with
`"sequence_0"`. -/
theorem messageBody_ne_zero (n : Nat) (h : 1 ≤ n) : messageBody n ≠ "sequence_0" := by
  intro hEq
  apply repr_ne_zero n h
  rw [messageBody] at hEq
  have hdata : ("sequence_" : String).data ++ (Nat.repr n).data
      = ("sequence_0" : String).data := by
    rw [← String.data_append]
    exact congrArg String.data hEq
  have hsplit : ("sequence_0" : String).data
      = ("sequence_" : String).data ++ ("0" : String).data := rfl
  rw [hsplit] at hdata
  exact String.ext (List.append_cancel_left hdata)

/-- The step that makes `acknowledged` reach `message_count` (from below)
requests the connection close. -/
theorem handle_close_at (s : AppState) (e : PnEvent)
    (h1 : s.acknowledged < s.message_count)
    (h2 : (handle s e).state.acknowledged = s.message_count) :
    (handle s e).state.closeRequested = true := by
  have hae := handle_ack_eq s e
  cases e
  case delivery accepted condSet =>
      cases accepted with
      | true =>
          have hh : s.acknowledged + 1 = s.message_count := by
            simp only [ackOf] at hae
            omega
          exact handle_close_hit s condSet hh
      | false =>
          simp only [ackOf] at hae
          omega
  all_goals simp only [ackOf] at hae
  all_goals omega

/-- One encode call never shrinks the buffer. -/
theorem encodeStep_mono (cap need : Nat) : cap ≤ (encodeStep cap need).1 := by
  have h := growCap_mono (if cap = 0 then 128 else cap) need
  have hc0 : cap ≤ (if cap = 0 then 128 else cap) := by split <;> omega
  exact le_trans hc0 h

/-- A sequence of encode calls never shrinks the buffer. -/
theorem encodeRun_mono (cap : Nat) (needs : List Nat) : cap ≤ encodeRun cap needs := by
  induction needs generalizing cap with
  | nil => simp [encodeRun]
  | cons n ns ih =>
      exact le_trans (encodeStep_mono cap n) (ih (encodeStep cap n).1)

/-- Claim C1, as stated, fails on the code at a concrete input: from the
initial state (sent = acknowledged = 0, messageCount = 5), the
one-event sequence consisting of a single accepted-delivery event is a
finite sequence of events processed by `handle`, yet it leaves
acknowledged = 1 > sent = 0, violating acknowledged ≤ sent.  (The PN_DELIVERY
branch increments `acknowledged` without checking it against `sent`.) -/
theorem C1_counterexample :
    ¬ ((runEvents (initState 5 "my_topic" "topic://")
          [PnEvent.delivery true false]).state.acknowledged
        ≤ (runEvents (initState 5 "my_topic" "topic://")
          [PnEvent.delivery true false]).state.sent) := by
  decide

/-- Claim C1 (amended): along every event trace that is well formed for
the broker protocol — an accepted-delivery event is only delivered while
acknowledged < sent, i.e. it acknowledges a delivery the producer itself
issued and that is still outstanding — every state reached from the
initial state (sent = acknowledged = 0) satisfies
acknowledged ≤ sent ≤ messageCount; and monotonic non-decrease of `sent`
and `acknowledged` across every single event-handling step holds
unconditionally. -/
theorem C1_invariant (mc : Nat) (addr pfx : String) (events : List PnEvent)
    (hwf : wfFrom (initState mc addr pfx) events = true) :
    ((runEvents (initState mc addr pfx) events).state.acknowledged
        ≤ (runEvents (initState mc addr pfx) events).state.sent
      ∧ (runEvents (initState mc addr pfx) events).state.sent
        ≤ (runEvents (initState mc addr pfx) events).state.message_count)
    ∧ (∀ (s : AppState) (e : PnEvent),
        s.sent ≤ (handle s e).state.sent
          ∧ s.acknowledged ≤ (handle s e).state.acknowledged) := by
  refine ⟨runEvents_inv _ _ hwf (by simp [initState]) (by simp [initState]), ?_⟩
  intro s e
  exact ⟨handle_sent_mono s e, handle_ack_mono s e⟩

/-- Concrete instantiation of C1_invariant: two credits arrive, two
messages go out, one is acknowledged. -/
theorem C1_witness :
    (runEvents (initState 3 "my_topic" "topic://")
        [PnEvent.link_flow 2, PnEvent.delivery true false]).state.acknowledged
      ≤ (runEvents (initState 3 "my_topic" "topic://")
        [PnEvent.link_flow 2, PnEvent.delivery true false]).state.sent :=
  (C1_invariant 3 "my_topic" "topic://" [PnEvent.link_flow 2, PnEvent.delivery true false]
      (by decide)).1.1

/-- Claim C2: a successful run — connection init and remote open with a
resolvable address, then only benign events (credit grants, accepted
deliveries, ignored events), with total granted credit at least
messageCount and exactly messageCount accepted-delivery outcomes — ends
with sent = messageCount and acknowledged = messageCount; for
messageCount > 0 the connection close has been requested by the end, and
in general the close request is issued exactly at the step at which
acknowledged becomes equal to messageCount (for messageCount = 0 no step
ever makes acknowledged "become" 0, and the final counters are both 0). -/
theorem C2_success_run (mc : Nat) (addr pfx val : String) (rc : Int) (rest : List PnEvent)
    (hres : amqp_destination_address PN_MAX_ADDR addr (if 0 < rc then val else pfx) ≠ none)
    (hb : rest.all benignSteady = true)
    (hcredit : mc ≤ totalCredit rest)
    (hack : countAccepted rest = mc) :
    ((runEvents (initState mc addr pfx)
          (PnEvent.connection_init :: PnEvent.connection_remote_open rc val :: rest)).state.sent
        = mc
      ∧ (runEvents (initState mc addr pfx)
          (PnEvent.connection_init :: PnEvent.connection_remote_open rc val :: rest)).state.acknowledged
        = mc)
    ∧ (0 < mc →
        (runEvents (initState mc addr pfx)
          (PnEvent.connection_init :: PnEvent.connection_remote_open rc val :: rest)).state.closeRequested
          = true)
    ∧ (∀ (s : AppState) (e : PnEvent),
        s.acknowledged < s.message_count →
        (handle s e).state.acknowledged = s.message_count →
        (handle s e).state.closeRequested = true) := by
  have hinit : handle (initState mc addr pfx) PnEvent.connection_init
      = { state := initState mc addr pfx, sends := [], cont := true } := rfl
  have haddr : (set_topic_prefix_from_connection (initState mc addr pfx) rc val).1.amqp_address
      = addr := (set_topic_fields _ _ _).2.2.2.2.2
  have hpfx : topicPfx (set_topic_prefix_from_connection (initState mc addr pfx) rc val).1
      = if 0 < rc then val else pfx := by
    rw [topicPfx_set]
    rfl
  obtain ⟨v, hv⟩ := Option.ne_none_iff_exists'.mp hres
  have hopen : handle (initState mc addr pfx) (PnEvent.connection_remote_open rc val)
      = { state := (set_topic_prefix_from_connection (initState mc addr pfx) rc val).1,
          sends := [], cont := true } := by
    simp only [handle]
    rw [haddr, hpfx, hv]
  have hstate : (runEvents (initState mc addr pfx)
      (PnEvent.connection_init :: PnEvent.connection_remote_open rc val :: rest)).state
      = (runEvents (set_topic_prefix_from_connection (initState mc addr pfx) rc val).1
          rest).state := by
    simp [runEvents, hinit, hopen]
  have hfields := set_topic_fields (initState mc addr pfx) rc val
  have hsent0 : (set_topic_prefix_from_connection (initState mc addr pfx) rc val).1.sent = 0 :=
    hfields.1
  have hack0 : (set_topic_prefix_from_connection (initState mc addr pfx) rc val).1.acknowledged
      = 0 := hfields.2.1
  have hmc0 : (set_topic_prefix_from_connection (initState mc addr pfx) rc val).1.message_count
      = mc := hfields.2.2.1
  have hsentfin : (runEvents (set_topic_prefix_from_connection
        (initState mc addr pfx) rc val).1 rest).state.sent = mc := by
    rw [steady_sent _ _ hb (by rw [hsent0, hmc0]; omega), hsent0, hmc0]
    omega
  have hackfin : (runEvents (set_topic_prefix_from_connection
        (initState mc addr pfx) rc val).1 rest).state.acknowledged = mc := by
    rw [steady_ack _ _ hb, hack0, hack]
    omega
  refine ⟨⟨by rw [hstate]; exact hsentfin, by rw [hstate]; exact hackfin⟩, ?_, ?_⟩
  · intro hmc
    rw [hstate]
    exact steady_close _ _ hb (by rw [hack0, hmc0]; omega)
      (by rw [hackfin, hmc0])
  · intro s e h1 h2
    exact handle_close_at s e h1 h2

/-- Concrete instantiation of C2_success_run with messageCount = 2. -/
theorem C2_witness :
    (runEvents (initState 2 "my_topic" "topic://")
        (PnEvent.connection_init :: PnEvent.connection_remote_open 0 "" ::
          [PnEvent.link_flow 2, PnEvent.delivery true false,
           PnEvent.delivery true false])).state.sent = 2
      ∧ (runEvents (initState 2 "my_topic" "topic://")
        (PnEvent.connection_init :: PnEvent.connection_remote_open 0 "" ::
          [PnEvent.link_flow 2, PnEvent.delivery true false,
           PnEvent.delivery true false])).state.acknowledged = 2 :=
  (C2_success_run 2 "my_topic" "topic://" "" 0
      [PnEvent.link_flow 2, PnEvent.delivery true false, PnEvent.delivery true false]
      (by decide) (by decide) (by decide) (by decide)).1

/-- Claim C3: a single link-flow event with credit c performs exactly
min(c, messageCount - sent) sends, in strictly increasing sequence order;
each send uses the incremented value of `sent` as the delivery tag, the
number in the body equals the tag, the body is the string
"sequence_<sent>" with the durable flag true, and `sent` never exceeds
messageCount. -/
theorem C3_flow_event (st : AppState) (c : Nat) (_hc : 0 < c)
    (hs : st.sent < st.message_count) :
    (handle st (PnEvent.link_flow c)).sends
        = List.map mkSend (List.range' (st.sent + 1) (min c (st.message_count - st.sent)))
      ∧ (handle st (PnEvent.link_flow c)).sends.length = min c (st.message_count - st.sent)
      ∧ List.Pairwise (fun a b => a.tag < b.tag) (handle st (PnEvent.link_flow c)).sends
      ∧ (∀ s ∈ (handle st (PnEvent.link_flow c)).sends,
          s.body = "sequence_" ++ Nat.repr s.tag ∧ s.durable = true)
      ∧ (handle st (PnEvent.link_flow c)).state.sent
          = st.sent + min c (st.message_count - st.sent)
      ∧ (handle st (PnEvent.link_flow c)).state.sent ≤ st.message_count := by
  have hsends : (handle st (PnEvent.link_flow c)).sends
      = List.map mkSend (List.range' (st.sent + 1) (min c (st.message_count - st.sent))) := by
    simp [handle, flowLoop_spec]
  have hstate : (handle st (PnEvent.link_flow c)).state.sent
      = st.sent + min c (st.message_count - st.sent) := by
    simp [handle, flowLoop_spec]
  refine ⟨hsends, by rw [hsends]; simp, ?_, ?_, hstate, by rw [hstate]; omega⟩
  · rw [hsends, List.pairwise_map]
    have hp := List.pairwise_lt_range' (st.sent + 1) (min c (st.message_count - st.sent))
    exact hp.imp (fun hab => hab)
  · intro s hs'
    rw [hsends] at hs'
    obtain ⟨x, hx, rfl⟩ := List.mem_map.mp hs'
    exact ⟨rfl, rfl⟩

/-- Concrete instantiation of C3_flow_event: two credits against
messageCount 3 send sequence numbers 1 and 2. -/
theorem C3_witness :
    (handle (initState 3 "my_topic" "topic://") (PnEvent.link_flow 2)).sends
      = [mkSend 1, mkSend 2] :=
  (C3_flow_event (initState 3 "my_topic" "topic://") 2 (by decide) (by decide)).1

/-- Claim C4, as stated, fails on the code at a concrete input: when the
condition's error indicator is NOT set, `check_condition` neither sets the
exit status to 1 nor requests the connection close — the whole body is
guarded by `pn_condition_is_set`. -/
theorem C4_counterexample :
    ¬ ((check_condition (initState 1 "my_topic" "topic://") false).1.exit_code = 1
        ∧ (check_condition (initState 1 "my_topic" "topic://") false).1.closeRequested
            = true) := by
  decide

/-- Claim C4 (amended): when the condition's error indicator is set,
`check_condition` emits the event-type label, condition name and
description, sets the exit status to 1 and requests the connection close;
when it is not set, it emits nothing and leaves the state unchanged. -/
theorem C4_report (st : AppState) (condSet : Bool) :
    (condSet = true →
        (check_condition st condSet).1.exit_code = 1
          ∧ (check_condition st condSet).1.closeRequested = true
          ∧ (check_condition st condSet).2 = true)
      ∧ (condSet = false →
        (check_condition st condSet).1 = st ∧ (check_condition st condSet).2 = false) := by
  constructor
  · intro h
    subst h
    simp [check_condition]
  · intro h
    subst h
    simp [check_condition]

/-- Concrete instantiation of C4_report for both indicator values. -/
theorem C4_witness :
    ((check_condition (initState 2 "my_topic" "topic://") true).1.exit_code = 1
        ∧ (check_condition (initState 2 "my_topic" "topic://") true).1.closeRequested = true
        ∧ (check_condition (initState 2 "my_topic" "topic://") true).2 = true)
      ∧ ((check_condition (initState 2 "my_topic" "topic://") false).1
            = initState 2 "my_topic" "topic://"
        ∧ (check_condition (initState 2 "my_topic" "topic://") false).2 = false) :=
  ⟨(C4_report (initState 2 "my_topic" "topic://") true).1 rfl,
   (C4_report (initState 2 "my_topic" "topic://") false).2 rfl⟩

/-- A topic prefix longer than PN_MAX_ADDR, forcing address resolution to
fail. -/
def longPfx : String := String.mk (List.replicate PN_MAX_ADDR 'a')

set_option maxRecDepth 100000 in
/-- Claim C5, as stated, fails on the code at a concrete input: when
address resolution fails during connection-remote-open, `handle` returns
false and `run` returns immediately, so the event loop does NOT proceed
through pending close machinery — a subsequent accepted-delivery event in
the same run is never processed (acknowledged stays 0) and the run is
marked stopped. -/
theorem C5_counterexample :
    (runEvents (initState 1 "my_topic" longPfx)
        [PnEvent.connection_init, PnEvent.connection_remote_open 0 "",
         PnEvent.delivery true false]).stopped = true
      ∧ (runEvents (initState 1 "my_topic" longPfx)
          [PnEvent.connection_init, PnEvent.connection_remote_open 0 "",
           PnEvent.delivery true false]).state.acknowledged = 0 := by
  decide

/-- Claim C5 (amended): if address resolution fails during
connection-remote-open, the exit status becomes 1, no message is ever sent
(`sent` stays 0 and no sends are produced), and the event loop terminates
immediately — `handle` returns false and `run` returns, leaving any
remaining events unprocessed. -/
theorem C5_resolution_failure (mc : Nat) (addr pfx val : String) (rc : Int)
    (rest : List PnEvent)
    (hfail : amqp_destination_address PN_MAX_ADDR addr (if 0 < rc then val else pfx)
        = none) :
    (runEvents (initState mc addr pfx)
        (PnEvent.connection_init :: PnEvent.connection_remote_open rc val :: rest)).state.exit_code
        = 1
      ∧ (runEvents (initState mc addr pfx)
          (PnEvent.connection_init :: PnEvent.connection_remote_open rc val :: rest)).state.sent
        = 0
      ∧ (runEvents (initState mc addr pfx)
          (PnEvent.connection_init :: PnEvent.connection_remote_open rc val :: rest)).sends
        = []
      ∧ (runEvents (initState mc addr pfx)
          (PnEvent.connection_init :: PnEvent.connection_remote_open rc val :: rest)).stopped
        = true := by
  have hinit : handle (initState mc addr pfx) PnEvent.connection_init
      = { state := initState mc addr pfx, sends := [], cont := true } := rfl
  have haddr : (set_topic_prefix_from_connection (initState mc addr pfx) rc val).1.amqp_address
      = addr := (set_topic_fields _ _ _).2.2.2.2.2
  have hpfx : topicPfx (set_topic_prefix_from_connection (initState mc addr pfx) rc val).1
      = if 0 < rc then val else pfx := by
    rw [topicPfx_set]
    rfl
  have hopen : handle (initState mc addr pfx) (PnEvent.connection_remote_open rc val)
      = { state := { (set_topic_prefix_from_connection (initState mc addr pfx) rc val).1
            with exit_code := 1 },
          sends := [], cont := false } := by
    simp only [handle]
    rw [haddr, hpfx, hfail]
  have hsent0 : (set_topic_prefix_from_connection (initState mc addr pfx) rc val).1.sent = 0 :=
    (set_topic_fields _ _ _).1
  simp [runEvents, hinit, hopen, hsent0]

set_option maxRecDepth 100000 in
/-- Concrete instantiation of C5_resolution_failure with the overlong
prefix. -/
theorem C5_witness :
    (runEvents (initState 1 "my_topic" longPfx)
        (PnEvent.connection_init :: PnEvent.connection_remote_open 0 "" ::
          [PnEvent.other])).state.exit_code = 1
      ∧ (runEvents (initState 1 "my_topic" longPfx)
          (PnEvent.connection_init :: PnEvent.connection_remote_open 0 "" ::
            [PnEvent.other])).state.sent = 0
      ∧ (runEvents (initState 1 "my_topic" longPfx)
          (PnEvent.connection_init :: PnEvent.connection_remote_open 0 "" ::
            [PnEvent.other])).sends = []
      ∧ (runEvents (initState 1 "my_topic" longPfx)
          (PnEvent.connection_init :: PnEvent.connection_remote_open 0 "" ::
            [PnEvent.other])).stopped = true :=
  C5_resolution_failure 1 "my_topic" longPfx "" 0 [PnEvent.other] (by decide)

/-- Claim C6: the overflow-retry loop of encode_message terminates —
starting from capacity 128 when the buffer is fresh and doubling on each
overflow, the final capacity is the starting capacity times a power of two
and fits the encoded size; the capacity never decreases, across one call
and across any sequence of calls; and the returned range length is at most
the capacity at return. -/
theorem C6_encode_growth (cap need : Nat) (needs : List Nat) :
    (∃ k, (encodeStep cap need).1 = (if cap = 0 then 128 else cap) * 2 ^ k)
      ∧ need ≤ (encodeStep cap need).1
      ∧ cap ≤ (encodeStep cap need).1
      ∧ (encodeStep cap need).2 ≤ (encodeStep cap need).1
      ∧ cap ≤ encodeRun cap needs := by
  have hpos : 1 ≤ (if cap = 0 then 128 else cap) := by split <;> omega
  exact ⟨growCap_pow _ _, growCap_ge _ _ hpos, encodeStep_mono cap need,
    growCap_ge _ _ hpos, encodeRun_mono cap needs⟩

/-- Concrete instantiation of C6_encode_growth: a fresh buffer grows to
fit a 200-byte message. -/
theorem C6_witness : 200 ≤ (encodeStep 0 200).1 :=
  (C6_encode_growth 0 200 []).2.1

/-- Claim C7: a non-accepted delivery outcome sets the exit status to 1
(even when the peer attached no condition to the disposition) and requests
the connection close, and — since the closed connection yields no further
link-flow events (the AMQP/proactor guarantee, modelled as the remainder
of the trace containing no link-flow events) — no further messages are
sent in the remainder of the run. -/
theorem C7_rejected_delivery (st : AppState) (condSet : Bool) (rest : List PnEvent)
    (hnoflow : ∀ c, PnEvent.link_flow c ∉ rest) :
    (handle st (PnEvent.delivery false condSet)).state.exit_code = 1
      ∧ (handle st (PnEvent.delivery false condSet)).state.closeRequested = true
      ∧ (handle st (PnEvent.delivery false condSet)).sends = []
      ∧ (runEvents (handle st (PnEvent.delivery false condSet)).state rest).sends = []
      ∧ (runEvents (handle st (PnEvent.delivery false condSet)).state rest).state.sent
          = st.sent := by
  obtain ⟨h1, h2⟩ :=
    runEvents_noflow (handle st (PnEvent.delivery false condSet)).state rest hnoflow
  refine ⟨rfl, rfl, rfl, h1, ?_⟩
  rw [h2]
  cases condSet <;> rfl

/-- Concrete instantiation of C7_rejected_delivery: a rejected delivery
with no condition attached, followed by the transport close. -/
theorem C7_witness :
    (handle (initState 3 "my_topic" "topic://") (PnEvent.delivery false false)).state.exit_code
        = 1
      ∧ (handle (initState 3 "my_topic" "topic://")
          (PnEvent.delivery false false)).state.closeRequested = true
      ∧ (handle (initState 3 "my_topic" "topic://") (PnEvent.delivery false false)).sends = []
      ∧ (runEvents (handle (initState 3 "my_topic" "topic://")
          (PnEvent.delivery false false)).state [PnEvent.transport_closed true]).sends = []
      ∧ (runEvents (handle (initState 3 "my_topic" "topic://")
          (PnEvent.delivery false false)).state
            [PnEvent.transport_closed true]).state.sent
        = (initState 3 "my_topic" "topic://").sent :=
  C7_rejected_delivery (initState 3 "my_topic" "topic://") false
    [PnEvent.transport_closed true]
    (by
      intro c hc
      simp at hc)

/-- Claim C8: the negotiation step replaces the stored topic prefix (with
the advertised value) exactly when the lookup result is positive; for
every non-positive result the whole state — prefix, exit status, close
request included — is left unchanged, and in both cases the lookup result
is returned unmodified and nothing aborts the connection (exit status and
close request are never touched). -/
theorem C8_prefix_negotiation (app : AppState) (rc : Int) (val : String) :
    (0 < rc →
        (set_topic_prefix_from_connection app rc val).1
          = { app with amqp_topic_prefix := val })
      ∧ (rc ≤ 0 → (set_topic_prefix_from_connection app rc val).1 = app)
      ∧ (set_topic_prefix_from_connection app rc val).2 = rc
      ∧ (set_topic_prefix_from_connection app rc val).1.exit_code = app.exit_code
      ∧ (set_topic_prefix_from_connection app rc val).1.closeRequested
          = app.closeRequested := by
  refine ⟨?_, ?_, ?_, (set_topic_fields app rc val).2.2.2.1,
    (set_topic_fields app rc val).2.2.2.2.1⟩
  · intro h
    simp [set_topic_prefix_from_connection, h]
  · intro h
    have hn : ¬ 0 < rc := by omega
    simp [set_topic_prefix_from_connection, hn]
  · simp only [set_topic_prefix_from_connection]
    split <;> rfl

/-- Concrete instantiation of C8_prefix_negotiation: a positive lookup
stores "acme/", a negative one leaves the state untouched. -/
theorem C8_witness :
    (set_topic_prefix_from_connection (initState 1 "my_topic" "topic://") 3 "acme/").1
        = { initState 1 "my_topic" "topic://" with amqp_topic_prefix := "acme/" }
      ∧ (set_topic_prefix_from_connection (initState 1 "my_topic" "topic://") (-1) "x").1
        = initState 1 "my_topic" "topic://" :=
  ⟨(C8_prefix_negotiation (initState 1 "my_topic" "topic://") 3 "acme/").1 (by decide),
   (C8_prefix_negotiation (initState 1 "my_topic" "topic://") (-1) "x").2.1 (by decide)⟩

/-- Claim C9: in any run from the initial state, the transmitted sequence
numbers are exactly 1, 2, …, up to the final value of `sent` (which never
exceeds messageCount): the first message carries body "sequence_1", every
send's delivery-tag integer equals the number embedded in its body, each
tag lies in 1..messageCount, and no message with body "sequence_0" is ever
sent. -/
theorem C9_sequence_numbers (mc : Nat) (addr pfx : String) (events : List PnEvent) :
    (runEvents (initState mc addr pfx) events).sends
        = List.map mkSend
            (List.range' 1 ((runEvents (initState mc addr pfx) events).state.sent))
      ∧ (runEvents (initState mc addr pfx) events).state.sent ≤ mc
      ∧ (0 < (runEvents (initState mc addr pfx) events).state.sent →
          (runEvents (initState mc addr pfx) events).sends.head? = some (mkSend 1))
      ∧ (∀ s ∈ (runEvents (initState mc addr pfx) events).sends,
          1 ≤ s.tag ∧ s.tag ≤ mc ∧ s.body = "sequence_" ++ Nat.repr s.tag
            ∧ s.body ≠ "sequence_0") := by
  have h1 : (runEvents (initState mc addr pfx) events).sends
      = List.map mkSend
          (List.range' 1 ((runEvents (initState mc addr pfx) events).state.sent)) :=
    runEvents_sends (initState mc addr pfx) events
  have h2 : (runEvents (initState mc addr pfx) events).state.sent ≤ mc :=
    runEvents_sent_le (initState mc addr pfx) events (by simp [initState])
  refine ⟨h1, h2, ?_, ?_⟩
  · intro hpos
    rw [h1]
    obtain ⟨k, hk⟩ : ∃ k, (runEvents (initState mc addr pfx) events).state.sent = k + 1 :=
      ⟨(runEvents (initState mc addr pfx) events).state.sent - 1, by omega⟩
    rw [hk, List.range'_succ]
    simp
  · intro s hs'
    rw [h1] at hs'
    obtain ⟨x, hx, rfl⟩ := List.mem_map.mp hs'
    rw [List.mem_range'_1] at hx
    refine ⟨hx.1, ?_, rfl, ?_⟩
    · show x ≤ mc
      omega
    · exact messageBody_ne_zero x hx.1

/-- Concrete instantiation of C9_sequence_numbers: five credits against
messageCount 2 transmit exactly sequence numbers 1 and 2. -/
theorem C9_witness :
    (runEvents (initState 2 "my_topic" "topic://") [PnEvent.link_flow 5]).sends
      = List.map mkSend (List.range' 1
          ((runEvents (initState 2 "my_topic" "topic://")
            [PnEvent.link_flow 5]).state.sent)) :=
  (C9_sequence_numbers 2 "my_topic" "topic://" [PnEvent.link_flow 5]).1

/-- Claim C10: for every event other than PN_PROACTOR_INACTIVE and other
than a PN_CONNECTION_REMOTE_OPEN whose address resolution fails, `handle`
returns true — in particular transport-closed, remote-close,
remote-detach and rejected-delivery events never terminate the loop by
themselves — while PN_PROACTOR_INACTIVE always returns false. -/
theorem C10_continue (st : AppState) (e : PnEvent)
    (h1 : e ≠ PnEvent.proactor_inactive)
    (h2 : ∀ rc val, e = PnEvent.connection_remote_open rc val →
        amqp_destination_address PN_MAX_ADDR st.amqp_address
          (if 0 < rc then val else topicPfx st) ≠ none) :
    (handle st e).cont = true
      ∧ (handle st PnEvent.proactor_inactive).cont = false := by
  refine ⟨?_, rfl⟩
  cases e
  case proactor_inactive => exact absurd rfl h1
  case connection_remote_open rc val =>
      have hres := h2 rc val rfl
      have haddr : (set_topic_prefix_from_connection st rc val).1.amqp_address
          = st.amqp_address := (set_topic_fields _ _ _).2.2.2.2.2
      have hpfx : topicPfx (set_topic_prefix_from_connection st rc val).1
          = if 0 < rc then val else topicPfx st := topicPfx_set st rc val
      obtain ⟨v, hv⟩ := Option.ne_none_iff_exists'.mp hres
      simp only [handle]
      rw [haddr, hpfx, hv]
  all_goals simp only [handle, check_condition]
  all_goals repeat' split
  all_goals rfl

/-- Concrete instantiation of C10_continue: a rejected delivery does not
end the loop. -/
theorem C10_witness :
    (handle (initState 1 "my_topic" "topic://") (PnEvent.delivery false true)).cont = true :=
  (C10_continue (initState 1 "my_topic" "topic://") (PnEvent.delivery false true)
      (by decide)
      (by
        intro rc val h
        exact PnEvent.noConfusion h)).1

end Producer
